import Mathlib

/-!
Verification of the horserace benchmarking harness.

Shallow embedding of the run-history and comparison model of the repository:
`compare-runs.js` (run loading, metric extraction, cross-run comparison) and
`run-benchmark.js` (run identifiers, the k6 load probe wrapper, the run index,
the summary renderer).  File-system reads, subprocess invocations and JSON
parsing are modelled as explicit environment parameters; numeric metric values
are modelled as integers; an ISO timestamp already parsed by `new Date` is
modelled as an integer date value.  Markdown/console rendering is modelled as
structured lines, one constructor per `comparisonLines.push` / `summaryLines.push`
site of the source, keeping exactly the data the pushed string interpolates.
-/

/-! ### Data model: persisted run records (`all-results.json`) -/

/-- One Playwright test entry (`playwright.tests[i]`).  Only the fields the
repository reads are kept; a field absent in the JSON is `none`. -/
structure PwTest where
  name : String
  success : Bool := true
  duration : Option Int := none
  domContentLoaded : Option Int := none
  domInteractive : Option Int := none
  loadComplete : Option Int := none
  ttfb : Option Int := none
  dns : Option Int := none
  tcp : Option Int := none
  download : Option Int := none
deriving DecidableEq, Repr

/-- Result of the Playwright probe for one target. -/
structure PwResult where
  error : Option String := none
  tests : List PwTest := []
deriving DecidableEq, Repr

/-- Result object returned by `runK6Benchmark` (success or captured-error
shape; `null` is modelled as `Option.none` at the use sites). -/
structure K6Result where
  target : String := ""
  url : String := ""
  error : Option String := none
  metricsFile : Option String := none
  totalRequests : Option Nat := none
deriving DecidableEq, Repr

/-- One element of `allResults.targets`. -/
structure TargetRecord where
  target : String
  url : String
  playwright : Option PwResult := none
  k6 : Option K6Result := none
deriving DecidableEq, Repr

/-- A persisted run record (`all-results.json`): `timestamp` is the date value
of the stored ISO timestamp string. -/
structure RunRecord where
  runId : String
  timestamp : Int
  targets : List TargetRecord
deriving DecidableEq, Repr

/-! ### JS object emulation: string-keyed objects as insertion-ordered
association lists (`obj[k] = v` overwrites in place, `Object.keys` returns
insertion order). -/

def objGet {α : Type} (m : List (String × α)) (k : String) : Option α :=
  (m.find? (fun p => p.1 == k)).map (fun p => p.2)

def objInsert {α : Type} (m : List (String × α)) (k : String) (v : α) :
    List (String × α) :=
  if m.any (fun p => p.1 == k) then
    m.map (fun p => if p.1 == k then (k, v) else p)
  else m ++ [(k, v)]

/-! ### `extractMetrics` (compare-runs.js) -/

/-- The `targetMetrics.playwright` object built by `extractMetrics`. -/
structure PwMetrics where
  pageLoad : Option Int := none
  domContentLoaded : Option Int := none
  domInteractive : Option Int := none
  loadComplete : Option Int := none
  ttfb : Option Int := none
  dns : Option Int := none
  tcp : Option Int := none
  download : Option Int := none
deriving DecidableEq, Repr

/-- One iteration of the `for (const test of target.playwright.tests)` loop. -/
def applyTest (m : PwMetrics) (t : PwTest) : PwMetrics :=
  if t.name = "page_load" then { m with pageLoad := t.duration }
  else if t.name = "dom_metrics" then
    { m with domContentLoaded := t.domContentLoaded,
             domInteractive := t.domInteractive,
             loadComplete := t.loadComplete }
  else if t.name = "network_timing" then
    { m with ttfb := t.ttfb, dns := t.dns, tcp := t.tcp,
             download := t.download }
  else m

/-- The `targetMetrics.playwright` object for one target: filled only when the playwright
result is present and error-free. -/
def extractPw (pw : Option PwResult) : PwMetrics :=
  match pw with
  | some r => if r.error = none then r.tests.foldl applyTest {} else {}
  | none => {}

/-- The guard `target.k6 && !target.k6.error && target.k6.metricsFile` (the test that
sets `targetMetrics.k6.hasResults`). -/
def k6Has (k : Option K6Result) : Bool :=
  match k with
  | some r => r.error.isNone && r.metricsFile.isSome
  | none => false

/-- The `targetMetrics` object for one target. -/
structure TargetMetrics where
  target : String
  url : String
  playwright : PwMetrics
  k6HasResults : Bool
  k6MetricsFile : Option String
deriving DecidableEq, Repr

def extractTargetMetrics (t : TargetRecord) : TargetMetrics :=
  { target := t.target
    url := t.url
    playwright := extractPw t.playwright
    k6HasResults := k6Has t.k6
    k6MetricsFile := if k6Has t.k6 then (t.k6.bind (fun r => r.metricsFile)) else none }

/-- The function `extractMetrics(results)`: the `metrics` object keyed by target name. -/
def extractMetrics (r : RunRecord) : List (String × TargetMetrics) :=
  r.targets.foldl (fun m t => objInsert m t.target (extractTargetMetrics t)) []

/-! ### `compareRuns` (compare-runs.js) -/

/-- One element of the `runs` array built from the loaded run records. -/
structure LoadedRun where
  runId : String
  timestamp : Int
  metrics : List (String × TargetMetrics)
deriving DecidableEq, Repr

def loadRuns (records : List RunRecord) : List LoadedRun :=
  records.map (fun r => ⟨r.runId, r.timestamp, extractMetrics r⟩)

/-- The comparator `(a, b) => new Date(a.timestamp) - new Date(b.timestamp)`. -/
def runLe (a b : LoadedRun) : Prop := a.timestamp ≤ b.timestamp

instance : DecidableRel runLe :=
  fun a b => inferInstanceAs (Decidable (a.timestamp ≤ b.timestamp))

instance : IsTotal LoadedRun runLe := ⟨fun a b => le_total a.timestamp b.timestamp⟩

instance : IsTrans LoadedRun runLe := ⟨fun _ _ _ h1 h2 => le_trans h1 h2⟩

/-- The call `runs.sort(...)` — a stable comparison sort, modelled by insertion sort. -/
def sortRuns (records : List RunRecord) : List LoadedRun :=
  List.insertionSort runLe (loadRuns records)

/-- JS `Set.add` iteration order: first-occurrence deduplication. -/
def addUnique (acc : List String) (k : String) : List String :=
  if k ∈ acc then acc else acc ++ [k]

/-- The `allTargets` set: every target key seen in any compared run, in first-seen
order. -/
def allTargets (runs : List LoadedRun) : List String :=
  (runs.flatMap (fun r => r.metrics.map (fun p => p.1))).foldl addUnique []

/-- Best/worst highlighting applied to one table cell. -/
inductive CompMark
  | best
  | worst
  | plain
deriving DecidableEq, Repr

structure CompCell where
  value : Int
  mark : CompMark
deriving DecidableEq, Repr

/-- Structured comparison output: one constructor per `comparisonLines.push`
site (markdown furniture such as separators and blank lines is dropped; keyed
lines record the enclosing target key). -/
inductive CompLine
  | docHeader
  | comparedRuns (ids : List String)
  | targetHeader (key : String)
  | noteMissing (key : String)
  | urlLine (key : String) (url : String)
  | pwHeader (key : String)
  | tableHead (key : String) (timestamps : List Int)
  | metricRow (key : String) (metric : String) (cells : List CompCell)
  | k6Header (key : String)
  | k6Row (key : String) (timestamp : Int) (ok : Bool)
deriving DecidableEq, Repr

def playwrightMetricNames : List String :=
  ["pageLoad", "domContentLoaded", "domInteractive", "ttfb", "dns", "tcp",
   "download"]

def PwMetrics.get (m : PwMetrics) (metric : String) : Option Int :=
  if metric = "pageLoad" then m.pageLoad
  else if metric = "domContentLoaded" then m.domContentLoaded
  else if metric = "domInteractive" then m.domInteractive
  else if metric = "ttfb" then m.ttfb
  else if metric = "dns" then m.dns
  else if metric = "tcp" then m.tcp
  else if metric = "download" then m.download
  else none

/-- The values `run.metrics[target].playwright[metric]` across the runs. -/
def pwValues (runs : List LoadedRun) (k metric : String) : List (Option Int) :=
  runs.map (fun r =>
    match objGet r.metrics k with
    | some tm => tm.playwright.get metric
    | none => none)

/-- JS `Math.min(...nums)` over a nonempty list (default 0 on the unreachable
empty case). -/
def listMin : List Int → Int
  | [] => 0
  | v :: vs => vs.foldl min v

def listMax : List Int → Int
  | [] => 0
  | v :: vs => vs.foldl max v

/-- Per-cell highlighting: `value === min` → best, else `value === max` →
worst, each guarded by `runs.length > 1`. -/
def markCell (nRuns : Nat) (mn mx : Int) (v : Int) : CompCell :=
  if v = mn ∧ 1 < nRuns then ⟨v, CompMark.best⟩
  else if v = mx ∧ 1 < nRuns then ⟨v, CompMark.worst⟩
  else ⟨v, CompMark.plain⟩

/-- The highlighted cells of one metric row: `nums`, `min`, `max` and the
per-cell marking of the source. -/
def rowCells (runs : List LoadedRun) (k metric : String) : List CompCell :=
  let nums := (pwValues runs k metric).map (fun v => v.getD 0)
  nums.map (markCell runs.length (listMin nums) (listMax nums))

/-- The row for one metric: emitted only when `values.every(v => v !==
undefined)`. -/
def renderMetricRow (runs : List LoadedRun) (k metric : String) :
    List CompLine :=
  if (pwValues runs k metric).all (fun v => v.isSome) then
    [CompLine.metricRow k metric (rowCells runs k metric)]
  else []

/-- The Playwright section of one target (emitted when some run defines some
metric of the fixed list). -/
def renderPwSection (runs : List LoadedRun) (k : String) : List CompLine :=
  let avail := playwrightMetricNames.filter
    (fun m => (pwValues runs k m).any (fun v => v.isSome))
  if avail.length ≠ 0 then
    CompLine.pwHeader k ::
    CompLine.tableHead k (runs.map (fun r => r.timestamp)) ::
    avail.flatMap (fun m => renderMetricRow runs k m)
  else []

/-- The k6 availability section of one target (emitted when some run has
k6 results). -/
def renderK6Section (runs : List LoadedRun) (k : String) : List CompLine :=
  let status := runs.map (fun r =>
    match objGet r.metrics k with
    | some tm => tm.k6HasResults
    | none => false)
  if status.any (fun s => s) then
    CompLine.k6Header k ::
    (runs.zip status).map (fun p => CompLine.k6Row k p.1.timestamp p.2)
  else []

/-- The body emitted for one element of `allTargets`. -/
def renderTarget (runs : List LoadedRun) (k : String) : List CompLine :=
  CompLine.targetHeader k ::
  (if runs.all (fun r => (objGet r.metrics k).isSome) then
    CompLine.urlLine k
      (match runs with
       | r :: _ => (match objGet r.metrics k with
                    | some tm => tm.url
                    | none => "")
       | [] => "") ::
    (renderPwSection runs k ++ renderK6Section runs k)
  else [CompLine.noteMissing k])

/-- The function `compareRuns(runIds)` after the runs have been loaded from storage:
`none` models the fatal exit on fewer than 2 runs. -/
def compareRuns (records : List RunRecord) : Option (List CompLine) :=
  if records.length < 2 then none
  else
    let runs := sortRuns records
    some (CompLine.docHeader ::
          CompLine.comparedRuns (records.map (fun r => r.runId)) ::
          (allTargets runs).flatMap (renderTarget runs))

/-! ### `updateRunsIndex` (run-benchmark.js) -/

/-- One entry of `runs-index.json`. -/
structure IndexEntry where
  runId : String
  timestamp : Int
  targets : List String
deriving DecidableEq, Repr

/-- The comparator `(a, b) => new Date(b.timestamp) - new Date(a.timestamp)`
(newest first). -/
def entryGe (a b : IndexEntry) : Prop := b.timestamp ≤ a.timestamp

instance : DecidableRel entryGe :=
  fun a b => inferInstanceAs (Decidable (b.timestamp ≤ a.timestamp))

instance : IsTotal IndexEntry entryGe := ⟨fun a b => le_total b.timestamp a.timestamp⟩

instance : IsTrans IndexEntry entryGe := ⟨fun _ _ _ h1 h2 => le_trans h2 h1⟩

/-- Reading the persisted index: `[]` when the file is absent, and `[]` again
when it exists but `JSON.parse` throws (`parsed = none`). -/
def readRunsIndex (fileExists : Bool) (parsed : Option (List IndexEntry)) :
    List IndexEntry :=
  if fileExists then parsed.getD [] else []

/-- The body of `updateRunsIndex` after the read: push the new entry, sort newest first,
keep at most the first 50. -/
def updateRunsIndex (runsIndex : List IndexEntry) (e : IndexEntry) :
    List IndexEntry :=
  let pushed := runsIndex ++ [e]
  let sorted := List.insertionSort entryGe pushed
  if 50 < sorted.length then sorted.take 50 else sorted

/-- The whole read-modify-write of the index file: the returned list is the
content written back. -/
def updateRunsIndexFile (fileExists : Bool) (parsed : Option (List IndexEntry))
    (e : IndexEntry) : List IndexEntry :=
  updateRunsIndex (readRunsIndex fileExists parsed) e

/-! ### `runK6Benchmark` (run-benchmark.js) -/

/-- One parsed line of the k6 metrics artifact; only the `type` field is
read. -/
structure JLine where
  type : String
deriving DecidableEq, Repr

/-- Host environment of one k6 invocation: whether the binary resolves,
whether the load run exits zero, and the output artifact as lines together
with the JSON line parser (`none` = `JSON.parse` throws on that line). -/
structure K6Env where
  k6Installed : Bool
  runSucceeds : Bool
  runErrorMsg : String
  fileExists : Bool
  fileLines : List String
  parseLine : String → Option JLine

/-- Parsing the raw artifact: split into lines, drop blank lines, parse each
line (`null` on failure), keep the values whose `type` is `"Point"`. -/
def parseK6Output (fileExists : Bool) (lines : List String)
    (parse : String → Option JLine) : List JLine :=
  if fileExists then
    ((lines.filter (fun l => l.trim != "")).filterMap parse).filter
      (fun m => m.type == "Point")
  else []

/-- The function `runK6Benchmark(targetName, targetUrl, runDir)`: `none` models the
`return null` taken when `k6 version` fails (binary not found); a thrown
`k6 run` is caught and returned as an error object; otherwise the artifact is
parsed and a success object returned. -/
def runK6Benchmark (env : K6Env) (targetName targetUrl outputFile : String) :
    Option K6Result :=
  if !env.k6Installed then none
  else if !env.runSucceeds then
    some { target := targetName, url := targetUrl,
           error := some env.runErrorMsg }
  else
    some { target := targetName, url := targetUrl,
           metricsFile := some outputFile,
           totalRequests :=
             some (parseK6Output env.fileExists env.fileLines
                     env.parseLine).length }

/-! ### `runAllBenchmarks` target loop (run-benchmark.js) -/

structure TargetCfg where
  name : String
  url : String
deriving DecidableEq, Repr

/-- Collaborator outcomes per target name. -/
structure BenchEnv where
  k6 : String → K6Env
  pw : String → Option PwResult

/-- One iteration of the `for (const targetName of selectedTargets)` loop:
an unknown key is skipped with a diagnostic; a known key contributes exactly
one record to `allResults.targets`, whatever the probes return. -/
def targetStep (cfg : List (String × TargetCfg)) (env : BenchEnv)
    (outputFileOf : String → String) (acc : List TargetRecord)
    (name : String) : List TargetRecord :=
  match objGet cfg name with
  | none => acc
  | some t =>
      acc ++ [{ target := name, url := t.url,
                playwright := env.pw name,
                k6 := runK6Benchmark (env.k6 name) name t.url
                        (outputFileOf name) }]

/-- The target loop of `runAllBenchmarks`. -/
def runTargetsLoop (cfg : List (String × TargetCfg)) (env : BenchEnv)
    (selected : List String) (outputFileOf : String → String) :
    List TargetRecord :=
  selected.foldl (targetStep cfg env outputFileOf) []

/-! ### `generateSummary` k6 section (run-benchmark.js) -/

/-- The three-way branch of the per-target k6 section of the single-run
summary. -/
inductive SummK6
  | success (metricsFile : Option String)
  | errorLine (msg : String)
  | skipped
deriving DecidableEq, Repr

/-- The branch `if (k6 && !k6.error) ... else if (k6?.error) ... else if (!k6) ...`. -/
def summK6 (k : Option K6Result) : SummK6 :=
  match k with
  | some r =>
      match r.error with
      | none => SummK6.success r.metricsFile
      | some m => SummK6.errorLine m
  | none => SummK6.skipped

/-! ### `runId` construction (run-benchmark.js)

`new Date().toISOString()` always yields `YYYY-MM-DDTHH:MM:SS.mmmZ`; the
run id is built from it by
`iso.replace(/[:.]/g, '-').split('T')[0] + '_' +
 iso.split('T')[1].split('.')[0].replace(/:/g, '-')`.
The ISO string itself is produced by the JS runtime; it is modelled from the
fixed `toISOString` format over a broken-down UTC instant. -/

structure Timestamp where
  year : Nat
  month : Nat
  day : Nat
  hour : Nat
  minute : Nat
  second : Nat
  ms : Nat
deriving DecidableEq, Repr

/-- Field bounds guaranteed by `toISOString` (weaker than calendar validity,
strong enough for fixed-width rendering). -/
def Timestamp.WF (t : Timestamp) : Prop :=
  t.year < 10000 ∧ t.month < 100 ∧ t.day < 100 ∧ t.hour < 100 ∧
  t.minute < 100 ∧ t.second < 100 ∧ t.ms < 1000

instance (t : Timestamp) : Decidable t.WF := by
  unfold Timestamp.WF; infer_instance

/-- Second-resolution chronological order on instants (milliseconds
ignored, as the run id drops them). -/
def Timestamp.secLt (a b : Timestamp) : Prop :=
  a.year < b.year ∨ (a.year = b.year ∧
    (a.month < b.month ∨ (a.month = b.month ∧
      (a.day < b.day ∨ (a.day = b.day ∧
        (a.hour < b.hour ∨ (a.hour = b.hour ∧
          (a.minute < b.minute ∨ (a.minute = b.minute ∧
            a.second < b.second)))))))))

instance (a b : Timestamp) : Decidable (a.secLt b) := by
  unfold Timestamp.secLt; infer_instance

def digitChar (n : Nat) : Char := Char.ofNat (48 + n)

def pad2 (n : Nat) : List Char := [digitChar (n / 10), digitChar (n % 10)]

def pad3 (n : Nat) : List Char := digitChar (n / 100) :: pad2 (n % 100)

def pad4 (n : Nat) : List Char := pad2 (n / 100) ++ pad2 (n % 100)

/-- The `toISOString` output, as characters.  Modelled from the spec: the JS
runtime's fixed-format UTC rendering of the run's start instant. -/
def isoChars (t : Timestamp) : List Char :=
  pad4 t.year ++ '-' ::
  (pad2 t.month ++ '-' ::
  (pad2 t.day ++ 'T' ::
  (pad2 t.hour ++ ':' ::
  (pad2 t.minute ++ ':' ::
  (pad2 t.second ++ '.' ::
  (pad3 t.ms ++ ['Z']))))))

/-- JS `str.replace(/[:.]/g, '-')`. -/
def replaceColonDot (cs : List Char) : List Char :=
  cs.map (fun c => if c = ':' ∨ c = '.' then '-' else c)

/-- JS `str.replace(/:/g, '-')`. -/
def replaceColon (cs : List Char) : List Char :=
  cs.map (fun c => if c = ':' then '-' else c)

/-- JS `str.split('T')[0]`. -/
def splitT0 (cs : List Char) : List Char := cs.takeWhile (fun c => c ≠ 'T')

/-- JS `str.split('T')[1]` (the segment between the first and second 'T'). -/
def splitT1 (cs : List Char) : List Char :=
  ((cs.dropWhile (fun c => c ≠ 'T')).drop 1).takeWhile (fun c => c ≠ 'T')

/-- JS `str.split('.')[0]`. -/
def splitDot0 (cs : List Char) : List Char := cs.takeWhile (fun c => c ≠ '.')

/-- The run id computed by `runAllBenchmarks` from the ISO timestamp. -/
def runIdChars (iso : List Char) : List Char :=
  splitT0 (replaceColonDot iso) ++ '_' :: replaceColon (splitDot0 (splitT1 iso))

/-- Closed form of the run id for a well-formed instant. -/
def runIdCanon (t : Timestamp) : List Char :=
  pad4 t.year ++ '-' ::
  (pad2 t.month ++ '-' ::
  (pad2 t.day ++ '_' ::
  (pad2 t.hour ++ '-' ::
  (pad2 t.minute ++ '-' ::
  pad2 t.second))))

/-! ### Helper lemmas: fold-based min/max -/

theorem foldl_min_le_init (a : Int) (l : List Int) : l.foldl min a ≤ a := by
  induction l generalizing a with
  | nil => simp
  | cons x xs ih => exact le_trans (ih (min a x)) (min_le_left a x)

theorem foldl_min_le_mem {v : Int} {l : List Int} (a : Int) (h : v ∈ l) :
    l.foldl min a ≤ v := by
  induction l generalizing a with
  | nil => cases h
  | cons x xs ih =>
      rcases List.mem_cons.mp h with rfl | hv
      · exact le_trans (foldl_min_le_init (min a v) xs) (min_le_right a v)
      · exact ih (min a x) hv

theorem listMin_le {v : Int} {l : List Int} (h : v ∈ l) : listMin l ≤ v := by
  cases l with
  | nil => cases h
  | cons x xs =>
      rcases List.mem_cons.mp h with rfl | hv
      · exact foldl_min_le_init v xs
      · exact foldl_min_le_mem x hv

theorem init_le_foldl_max (a : Int) (l : List Int) : a ≤ l.foldl max a := by
  induction l generalizing a with
  | nil => simp
  | cons x xs ih => exact le_trans (le_max_left a x) (ih (max a x))

theorem mem_le_foldl_max {v : Int} {l : List Int} (a : Int) (h : v ∈ l) :
    v ≤ l.foldl max a := by
  induction l generalizing a with
  | nil => cases h
  | cons x xs ih =>
      rcases List.mem_cons.mp h with rfl | hv
      · exact le_trans (le_max_right a v) (init_le_foldl_max (max a v) xs)
      · exact ih (max a x) hv

theorem le_listMax {v : Int} {l : List Int} (h : v ∈ l) : v ≤ listMax l := by
  cases l with
  | nil => cases h
  | cons x xs =>
      rcases List.mem_cons.mp h with rfl | hv
      · exact init_le_foldl_max v xs
      · exact mem_le_foldl_max x hv

/-! ### Helper lemmas: cell marking -/

theorem markCell_value (n : Nat) (mn mx v : Int) :
    (markCell n mn mx v).value = v := by
  unfold markCell
  split
  · rfl
  · split <;> rfl

theorem markCell_best_iff {n : Nat} {mn mx v : Int} (hn : 1 < n) :
    (markCell n mn mx v).mark = CompMark.best ↔ v = mn := by
  unfold markCell
  split
  · rename_i h
    simp [h.1]
  · rename_i h
    have hv : ¬ v = mn := fun e => h ⟨e, hn⟩
    split <;> simp [hv]

theorem markCell_worst_iff {n : Nat} {mn mx v : Int} (hn : 1 < n)
    (hne : mn ≠ mx) : (markCell n mn mx v).mark = CompMark.worst ↔ v = mx := by
  unfold markCell
  split
  · rename_i h
    have : ¬ v = mx := fun e => hne (h.1 ▸ e)
    simp [this]
  · rename_i h
    have hv : ¬ v = mn := fun e => h ⟨e, hn⟩
    split
    · rename_i h2
      simp [h2.1]
    · rename_i h2
      have : ¬ v = mx := fun e => h2 ⟨e, hn⟩
      simp [this]

theorem markCell_best_of_eq {n : Nat} {mn mx v : Int} (hn : 1 < n)
    (hv : v = mn) : (markCell n mn mx v).mark = CompMark.best := by
  unfold markCell
  rw [if_pos ⟨hv, hn⟩]

theorem rowCells_values (runs : List LoadedRun) (k m : String) :
    (rowCells runs k m).map (fun c => c.value) =
      (pwValues runs k m).map (fun v => v.getD 0) := by
  simp [rowCells, List.map_map, Function.comp, markCell_value]

/-! ### Helper lemmas: objects, targets -/

theorem objGet_isSome_iff {α : Type} (m : List (String × α)) (k : String) :
    (objGet m k).isSome ↔ ∃ p ∈ m, p.1 = k := by
  simp [objGet, List.find?_isSome]

theorem mem_addUnique {x k : String} {acc : List String} :
    x ∈ addUnique acc k ↔ x ∈ acc ∨ x = k := by
  unfold addUnique
  by_cases hk : k ∈ acc
  · simp only [if_pos hk]
    exact ⟨Or.inl, fun h => h.elim id (fun e => e ▸ hk)⟩
  · simp [if_neg hk]

theorem mem_foldl_addUnique {x : String} (l : List String) (acc : List String) :
    x ∈ l.foldl addUnique acc ↔ x ∈ acc ∨ x ∈ l := by
  induction l generalizing acc with
  | nil => simp
  | cons y ys ih =>
      rw [List.foldl_cons, ih, mem_addUnique]
      simp [List.mem_cons]
      tauto

theorem nodup_addUnique {acc : List String} {k : String} (h : acc.Nodup) :
    (addUnique acc k).Nodup := by
  unfold addUnique
  by_cases hk : k ∈ acc
  · simpa [if_pos hk] using h
  · simp [if_neg hk, List.nodup_append, h, hk]

theorem nodup_foldl_addUnique (l : List String) (acc : List String)
    (h : acc.Nodup) : (l.foldl addUnique acc).Nodup := by
  induction l generalizing acc with
  | nil => simpa
  | cons y ys ih => exact ih _ (nodup_addUnique h)

theorem mem_allTargets {k : String} {runs : List LoadedRun} :
    k ∈ allTargets runs ↔ ∃ r ∈ runs, ∃ p ∈ r.metrics, p.1 = k := by
  unfold allTargets
  rw [mem_foldl_addUnique]
  simp [List.mem_flatMap, List.mem_map, eq_comm]

theorem nodup_allTargets (runs : List LoadedRun) : (allTargets runs).Nodup :=
  nodup_foldl_addUnique _ _ List.nodup_nil

theorem sortRuns_length (records : List RunRecord) :
    (sortRuns records).length = records.length := by
  unfold sortRuns
  rw [(List.perm_insertionSort runLe (loadRuns records)).length_eq]
  simp [loadRuns]

theorem compareRuns_eq {records : List RunRecord} {lines : List CompLine}
    (h : compareRuns records = some lines) :
    2 ≤ records.length ∧
    lines = CompLine.docHeader ::
      CompLine.comparedRuns (records.map (fun r => r.runId)) ::
      (allTargets (sortRuns records)).flatMap (renderTarget (sortRuns records)) := by
  unfold compareRuns at h
  split at h
  · cases h
  · exact ⟨by omega, (Option.some.inj h).symm⟩

/-! ### Membership characterizations of the rendered comparison lines -/

theorem mem_renderMetricRow {l : CompLine} {runs : List LoadedRun}
    {k m : String} :
    l ∈ renderMetricRow runs k m ↔
      ((pwValues runs k m).all (fun v => v.isSome) = true ∧
       l = CompLine.metricRow k m (rowCells runs k m)) := by
  unfold renderMetricRow
  split <;> simp_all

theorem metricRow_mem_renderPwSection {runs : List LoadedRun}
    {k k' m : String} {cells : List CompCell} :
    CompLine.metricRow k' m cells ∈ renderPwSection runs k ↔
      (k' = k ∧ m ∈ playwrightMetricNames ∧
       (pwValues runs k m).any (fun v => v.isSome) = true ∧
       (pwValues runs k m).all (fun v => v.isSome) = true ∧
       cells = rowCells runs k m) := by
  simp only [renderPwSection]
  split
  · rename_i hne
    constructor
    · intro h
      rcases List.mem_cons.mp h with h1 | h
      · cases h1
      rcases List.mem_cons.mp h with h1 | h
      · cases h1
      rcases List.mem_flatMap.mp h with ⟨m', hm', hrow⟩
      rw [mem_renderMetricRow] at hrow
      obtain ⟨hall, heq⟩ := hrow
      obtain ⟨hk, hm, hc⟩ := CompLine.metricRow.inj heq
      subst hk; subst hm; subst hc
      rcases List.mem_filter.mp hm' with ⟨hmem, hany⟩
      exact ⟨rfl, hmem, hany, hall, rfl⟩
    · rintro ⟨rfl, hmem, hany, hall, rfl⟩
      apply List.mem_cons_of_mem
      apply List.mem_cons_of_mem
      apply List.mem_flatMap.mpr
      refine ⟨m, List.mem_filter.mpr ⟨hmem, hany⟩, ?_⟩
      rw [mem_renderMetricRow]
      exact ⟨hall, rfl⟩
  · rename_i hne
    simp only [List.not_mem_nil, false_iff]
    rintro ⟨hk, hmem, hany, hall, hc⟩
    subst hk
    have hmf : m ∈ playwrightMetricNames.filter
        (fun m2 => (pwValues runs k' m2).any (fun v => v.isSome)) :=
      List.mem_filter.mpr ⟨hmem, hany⟩
    have hz : (playwrightMetricNames.filter
        (fun m2 => (pwValues runs k' m2).any (fun v => v.isSome))).length = 0 := by
      omega
    rw [List.length_eq_zero.mp hz] at hmf
    cases hmf

theorem metricRow_not_mem_renderK6Section {runs : List LoadedRun}
    {k k' m : String} {cells : List CompCell} :
    CompLine.metricRow k' m cells ∉ renderK6Section runs k := by
  simp only [renderK6Section]
  split
  · intro h
    rcases List.mem_cons.mp h with h1 | h
    · cases h1
    rcases List.mem_map.mp h with ⟨p, _, he⟩
    cases he
  · exact List.not_mem_nil _

theorem noteMissing_not_mem_renderPwSection {runs : List LoadedRun}
    {k k' : String} :
    CompLine.noteMissing k' ∉ renderPwSection runs k := by
  simp only [renderPwSection]
  split
  · intro h
    rcases List.mem_cons.mp h with h1 | h
    · cases h1
    rcases List.mem_cons.mp h with h1 | h
    · cases h1
    rcases List.mem_flatMap.mp h with ⟨m', _, hrow⟩
    rw [mem_renderMetricRow] at hrow
    cases hrow.2
  · exact List.not_mem_nil _

theorem noteMissing_not_mem_renderK6Section {runs : List LoadedRun}
    {k k' : String} :
    CompLine.noteMissing k' ∉ renderK6Section runs k := by
  simp only [renderK6Section]
  split
  · intro h
    rcases List.mem_cons.mp h with h1 | h
    · cases h1
    rcases List.mem_map.mp h with ⟨p, _, he⟩
    cases he
  · exact List.not_mem_nil _

theorem metricRow_mem_renderTarget {runs : List LoadedRun} {k k' m : String}
    {cells : List CompCell} :
    CompLine.metricRow k' m cells ∈ renderTarget runs k ↔
      (runs.all (fun r => (objGet r.metrics k).isSome) = true ∧
       CompLine.metricRow k' m cells ∈ renderPwSection runs k) := by
  unfold renderTarget
  split
  · rename_i hall
    constructor
    · intro h
      rcases List.mem_cons.mp h with h1 | h
      · cases h1
      rcases List.mem_cons.mp h with h1 | h
      · cases h1
      rcases List.mem_append.mp h with h | h
      · exact ⟨hall, h⟩
      · exact absurd h metricRow_not_mem_renderK6Section
    · rintro ⟨_, h⟩
      exact List.mem_cons_of_mem _ (List.mem_cons_of_mem _
        (List.mem_append.mpr (Or.inl h)))
  · rename_i hall
    constructor
    · intro h
      rcases List.mem_cons.mp h with h1 | h
      · cases h1
      rcases List.mem_cons.mp h with h1 | h
      · cases h1
      cases h
    · rintro ⟨h, _⟩
      exact absurd h hall

theorem noteMissing_mem_renderTarget {runs : List LoadedRun} {k k' : String} :
    CompLine.noteMissing k' ∈ renderTarget runs k ↔
      (k' = k ∧ ¬ runs.all (fun r => (objGet r.metrics k).isSome) = true) := by
  unfold renderTarget
  split
  · rename_i hall
    constructor
    · intro h
      rcases List.mem_cons.mp h with h1 | h
      · cases h1
      rcases List.mem_cons.mp h with h1 | h
      · cases h1
      rcases List.mem_append.mp h with h | h
      · exact absurd h noteMissing_not_mem_renderPwSection
      · exact absurd h noteMissing_not_mem_renderK6Section
    · rintro ⟨_, hcon⟩
      exact absurd hall hcon
  · rename_i hall
    constructor
    · intro h
      rcases List.mem_cons.mp h with h1 | h
      · cases h1
      rcases List.mem_cons.mp h with h1 | h
      · exact ⟨(CompLine.noteMissing.inj h1), hall⟩
      cases h
    · rintro ⟨rfl, _⟩
      exact List.mem_cons_of_mem _ (List.mem_cons_self _ _)

/-! ### Counting noteMissing lines -/

theorem count_note_renderTarget_ne (runs : List LoadedRun) {k k' : String}
    (hne : k ≠ k') :
    (renderTarget runs k').count (CompLine.noteMissing k) = 0 := by
  rw [List.count_eq_zero]
  intro hmem
  rw [noteMissing_mem_renderTarget] at hmem
  exact hne hmem.1

theorem note_not_mem_flatMap (runs : List LoadedRun) {k : String}
    {ks : List String} (hk : k ∉ ks) :
    CompLine.noteMissing k ∉ ks.flatMap (renderTarget runs) := by
  intro hmem
  rcases List.mem_flatMap.mp hmem with ⟨k', hk', hm⟩
  rw [noteMissing_mem_renderTarget] at hm
  exact hk (hm.1 ▸ hk')

theorem count_note_flatMap (runs : List LoadedRun) {k : String}
    {ks : List String} (hnd : ks.Nodup) (hk : k ∈ ks)
    (hfail : ¬ runs.all (fun r => (objGet r.metrics k).isSome) = true) :
    (ks.flatMap (renderTarget runs)).count (CompLine.noteMissing k) = 1 := by
  induction ks with
  | nil => cases hk
  | cons y ys ih =>
      rw [List.flatMap_cons, List.count_append]
      rcases List.mem_cons.mp hk with heq | hk2
      · subst heq
        have h0 : (ys.flatMap (renderTarget runs)).count
            (CompLine.noteMissing k) = 0 :=
          List.count_eq_zero.mpr
            (note_not_mem_flatMap runs (List.nodup_cons.mp hnd).1)
        have h1 : (renderTarget runs k).count (CompLine.noteMissing k) = 1 := by
          unfold renderTarget
          rw [if_neg hfail]
          simp [List.count_cons]
        rw [h0, h1]
      · have hne : k ≠ y := by
          rintro rfl
          exact (List.nodup_cons.mp hnd).1 hk2
        rw [count_note_renderTarget_ne runs hne,
            ih (List.nodup_cons.mp hnd).2 hk2]

/-! ### C9: a target missing from some run gets exactly one note and no rows -/

/-- C9: in a comparison, a target key present in some but not all compared
runs yields exactly one "not all runs include this target" note and no metric
rows at all. -/
theorem compare_partial_target_note
    (records : List RunRecord) (lines : List CompLine) (k : String)
    (h : compareRuns records = some lines)
    (hsome : ∃ r ∈ sortRuns records, (objGet r.metrics k).isSome = true)
    (hnot : ∃ r ∈ sortRuns records, (objGet r.metrics k).isSome = false) :
    lines.count (CompLine.noteMissing k) = 1 ∧
      ∀ metric cells, CompLine.metricRow k metric cells ∉ lines := by
  obtain ⟨hlen, rfl⟩ := compareRuns_eq h
  obtain ⟨rf, hrf, hf⟩ := hnot
  have hfail : ¬ (sortRuns records).all
      (fun r => (objGet r.metrics k).isSome) = true := by
    intro hall
    have := List.all_eq_true.mp hall rf hrf
    rw [hf] at this
    cases this
  obtain ⟨rs, hrs, hs⟩ := hsome
  have hkmem : k ∈ allTargets (sortRuns records) := by
    rw [mem_allTargets]
    obtain ⟨p, hp, hpk⟩ := (objGet_isSome_iff _ _).mp hs
    exact ⟨rs, hrs, p, hp, hpk⟩
  constructor
  · rw [List.count_cons, List.count_cons]
    simp only [beq_iff_eq]
    rw [count_note_flatMap (sortRuns records) (nodup_allTargets _) hkmem hfail]
    simp
  · intro metric cells hmem
    rcases List.mem_cons.mp hmem with h1 | hmem
    · cases h1
    rcases List.mem_cons.mp hmem with h1 | hmem
    · cases h1
    rcases List.mem_flatMap.mp hmem with ⟨k', hk', hm⟩
    rw [metricRow_mem_renderTarget] at hm
    obtain ⟨hall', hpw⟩ := hm
    rw [metricRow_mem_renderPwSection] at hpw
    exact hfail (hpw.1 ▸ hall')

/-! ### C3: a metric row appears iff every compared run defines the metric -/

/-- C3: in a comparison, for a target present in every compared run and a
metric of the fixed list, a row for that metric is emitted iff every run has
a defined value for it; a partially defined metric yields no row at all. -/
theorem compare_metric_row_iff_all_defined
    (records : List RunRecord) (lines : List CompLine) (k metric : String)
    (h : compareRuns records = some lines)
    (hm : metric ∈ playwrightMetricNames)
    (ht : (sortRuns records).all (fun r => (objGet r.metrics k).isSome) = true) :
    (∃ cells, CompLine.metricRow k metric cells ∈ lines) ↔
      (pwValues (sortRuns records) k metric).all (fun v => v.isSome) = true := by
  obtain ⟨hlen, rfl⟩ := compareRuns_eq h
  constructor
  · rintro ⟨cells, hc⟩
    rcases List.mem_cons.mp hc with h1 | hc
    · cases h1
    rcases List.mem_cons.mp hc with h1 | hc
    · cases h1
    rcases List.mem_flatMap.mp hc with ⟨k', hk', hmem⟩
    rw [metricRow_mem_renderTarget] at hmem
    obtain ⟨hall', hpw⟩ := hmem
    rw [metricRow_mem_renderPwSection] at hpw
    obtain ⟨hkk, _, _, hall, _⟩ := hpw
    subst hkk
    exact hall
  · intro hall
    have hlenr := sortRuns_length records
    have hne : sortRuns records ≠ [] := by
      intro he
      rw [he] at hlenr
      simp at hlenr
      omega
    obtain ⟨r, hr⟩ := List.exists_mem_of_ne_nil _ hne
    have hrs : (objGet r.metrics k).isSome := by
      simpa using List.all_eq_true.mp ht r hr
    have hkmem : k ∈ allTargets (sortRuns records) := by
      rw [mem_allTargets]
      obtain ⟨p, hp, hpk⟩ := (objGet_isSome_iff _ _).mp hrs
      exact ⟨r, hr, p, hp, hpk⟩
    have hany : (pwValues (sortRuns records) k metric).any
        (fun v => v.isSome) = true := by
      have hv : (match objGet r.metrics k with
                 | some tm => tm.playwright.get metric
                 | none => none) ∈ pwValues (sortRuns records) k metric := by
        simp only [pwValues]
        exact List.mem_map_of_mem _ hr
      exact List.any_eq_true.mpr ⟨_, hv, List.all_eq_true.mp hall _ hv⟩
    refine ⟨rowCells (sortRuns records) k metric, ?_⟩
    apply List.mem_cons_of_mem
    apply List.mem_cons_of_mem
    apply List.mem_flatMap.mpr
    refine ⟨k, hkmem, ?_⟩
    rw [metricRow_mem_renderTarget]
    refine ⟨ht, ?_⟩
    rw [metricRow_mem_renderPwSection]
    exact ⟨rfl, hm, hany, hall, rfl⟩

/-! ### C1: best/worst marking of an included metric row -/

theorem marks_characterization {n : Nat} (hn : 1 < n) (nums : List Int) :
    (listMin nums = listMax nums →
       ∀ c ∈ nums.map (markCell n (listMin nums) (listMax nums)),
         c.mark = CompMark.best) ∧
    (listMin nums < listMax nums →
       ∀ c ∈ nums.map (markCell n (listMin nums) (listMax nums)),
         (c.mark = CompMark.best ↔ c.value = listMin nums) ∧
         (c.mark = CompMark.worst ↔ c.value = listMax nums)) := by
  constructor
  · intro he c hcm
    rcases List.mem_map.mp hcm with ⟨v, hv, rfl⟩
    have h1 := listMin_le hv
    have h2 := le_listMax hv
    have hveq : v = listMin nums := le_antisymm (he ▸ h2) h1
    exact markCell_best_of_eq hn hveq
  · intro hlt c hcm
    rcases List.mem_map.mp hcm with ⟨v, hv, rfl⟩
    constructor
    · rw [markCell_value, markCell_best_iff hn]
    · rw [markCell_value, markCell_worst_iff hn (ne_of_lt hlt)]

/-- C1 (amended): for a metric row included in a comparison, when min = max
across the runs every cell carries the best/fastest marker (the `value ===
min` branch fires first); when min < max, exactly the cells attaining the min
are marked best and exactly the cells attaining the max are marked worst. -/
theorem compare_tie_marks_all_best
    (records : List RunRecord) (lines : List CompLine) (k metric : String)
    (cells : List CompCell)
    (h : compareRuns records = some lines)
    (hc : CompLine.metricRow k metric cells ∈ lines) :
    (listMin (cells.map (fun c => c.value)) =
        listMax (cells.map (fun c => c.value)) →
       ∀ c ∈ cells, c.mark = CompMark.best) ∧
    (listMin (cells.map (fun c => c.value)) <
        listMax (cells.map (fun c => c.value)) →
       ∀ c ∈ cells,
         (c.mark = CompMark.best ↔
            c.value = listMin (cells.map (fun c => c.value))) ∧
         (c.mark = CompMark.worst ↔
            c.value = listMax (cells.map (fun c => c.value)))) := by
  obtain ⟨hlen, rfl⟩ := compareRuns_eq h
  rcases List.mem_cons.mp hc with h1 | hc
  · cases h1
  rcases List.mem_cons.mp hc with h1 | hc
  · cases h1
  rcases List.mem_flatMap.mp hc with ⟨k', hk', hmem⟩
  rw [metricRow_mem_renderTarget] at hmem
  obtain ⟨hall', hpw⟩ := hmem
  rw [metricRow_mem_renderPwSection] at hpw
  obtain ⟨hkk, _, _, _, hcell⟩ := hpw
  subst hkk
  subst hcell
  have hn : 1 < (sortRuns records).length := by
    rw [sortRuns_length]
    omega
  rw [rowCells_values]
  simp only [rowCells]
  exact marks_characterization hn _

/-! ### C4: chronological ordering of comparison columns -/

/-- Strict version of the timestamp comparator. -/
def runLt (a b : LoadedRun) : Prop := a.timestamp < b.timestamp

instance : IsAntisymm LoadedRun runLt :=
  ⟨fun _ _ h1 h2 => absurd (lt_trans h1 h2) (lt_irrefl _)⟩

/-- Concrete example records: run A, earlier, pageLoad 245ms. -/
def exA : RunRecord :=
  { runId := "2026-01-18_10-00-00", timestamp := 1000,
    targets := [{ target := "kylix", url := "http://kylix.local",
                  playwright := some { tests :=
                    [{ name := "page_load", duration := some 245 }] },
                  k6 := none }] }

/-- Concrete example records: run B, later, pageLoad 198ms. -/
def exB : RunRecord :=
  { runId := "2026-01-18_10-05-00", timestamp := 2000,
    targets := [{ target := "kylix", url := "http://kylix.local",
                  playwright := some { tests :=
                    [{ name := "page_load", duration := some 198 }] },
                  k6 := none }] }

/-- C4: the compared runs are always presented in ascending timestamp order —
the displayed sequence is sorted by timestamp and is a permutation of the
loaded runs; for loaded sets with pairwise distinct timestamps the displayed
sequence is the same whatever order the ids were supplied in; concretely,
both argument orders of runs A (t=1000, pageLoad 245) and B (t=2000,
pageLoad 198) yield columns A then B, with B marked fastest and A slowest. -/
theorem compare_orders_by_timestamp :
    (∀ records : List RunRecord,
       List.Sorted runLe (sortRuns records) ∧
       (sortRuns records).Perm (loadRuns records)) ∧
    (∀ r1 r2 : List RunRecord, r1.Perm r2 →
       (loadRuns r1).Pairwise (fun a b => a.timestamp ≠ b.timestamp) →
       sortRuns r1 = sortRuns r2) ∧
    (CompLine.tableHead "kylix" [1000, 2000] ∈
       (compareRuns [exA, exB]).getD [] ∧
     CompLine.tableHead "kylix" [1000, 2000] ∈
       (compareRuns [exB, exA]).getD [] ∧
     CompLine.metricRow "kylix" "pageLoad"
       [⟨245, CompMark.worst⟩, ⟨198, CompMark.best⟩] ∈
       (compareRuns [exA, exB]).getD [] ∧
     CompLine.metricRow "kylix" "pageLoad"
       [⟨245, CompMark.worst⟩, ⟨198, CompMark.best⟩] ∈
       (compareRuns [exB, exA]).getD []) := by
  refine ⟨?_, ?_, by decide, by decide, by decide, by decide⟩
  · intro records
    exact ⟨List.sorted_insertionSort runLe _, List.perm_insertionSort runLe _⟩
  · intro r1 r2 hp hpw
    have hmap : (loadRuns r1).Perm (loadRuns r2) := hp.map _
    have hs1 : List.Sorted runLe (sortRuns r1) :=
      List.sorted_insertionSort runLe _
    have hs2 : List.Sorted runLe (sortRuns r2) :=
      List.sorted_insertionSort runLe _
    have hp1 : (sortRuns r1).Perm (loadRuns r1) :=
      List.perm_insertionSort runLe _
    have hp2 : (sortRuns r2).Perm (loadRuns r2) :=
      List.perm_insertionSort runLe _
    have hpw1 : (sortRuns r1).Pairwise
        (fun a b => a.timestamp ≠ b.timestamp) :=
      (hp1.pairwise_iff (fun h => Ne.symm h)).mpr hpw
    have hpw2 : (sortRuns r2).Pairwise
        (fun a b => a.timestamp ≠ b.timestamp) :=
      (hp2.pairwise_iff (fun h => Ne.symm h)).mpr ((hmap.pairwise_iff (fun h => Ne.symm h)).mp hpw)
    have hst1 : List.Pairwise runLt (sortRuns r1) :=
      (hs1.and hpw1).imp (fun h => lt_of_le_of_ne h.1 h.2)
    have hst2 : List.Pairwise runLt (sortRuns r2) :=
      (hs2.and hpw2).imp (fun h => lt_of_le_of_ne h.1 h.2)
    exact List.eq_of_perm_of_sorted
      ((hp1.trans hmap).trans hp2.symm) hst1 hst2

/-- Witness for C4: with both argument orders, the displayed run sequence is
identical. -/
theorem compare_orders_by_timestamp_witness :
    sortRuns [exA, exB] = sortRuns [exB, exA] :=
  compare_orders_by_timestamp.2.1 [exA, exB] [exB, exA]
    (List.Perm.swap exB exA []) (by decide)

/-! ### C1 counterexample: a tied metric row marks every run as best -/

/-- Two runs whose only metric value is identical (100ms). -/
def tieRecA : RunRecord :=
  { runId := "r1", timestamp := 1,
    targets := [{ target := "alpha", url := "http://alpha.local",
                  playwright := some { tests :=
                    [{ name := "page_load", duration := some 100 }] },
                  k6 := none }] }

def tieRecB : RunRecord :=
  { runId := "r2", timestamp := 2,
    targets := [{ target := "alpha", url := "http://alpha.local",
                  playwright := some { tests :=
                    [{ name := "page_load", duration := some 100 }] },
                  k6 := none }] }

/-- C1 counterexample: comparing two runs with the identical value 100 for
`pageLoad` (so min = max), the emitted row flags both runs with the
best/fastest marker — refuting "when min == max no run is flagged". -/
theorem compare_tie_marks_counterexample :
    CompLine.metricRow "alpha" "pageLoad"
      [⟨100, CompMark.best⟩, ⟨100, CompMark.best⟩] ∈
      (compareRuns [tieRecA, tieRecB]).getD [] ∧
    listMin ([CompCell.mk 100 CompMark.best,
              CompCell.mk 100 CompMark.best].map (fun c => c.value)) =
      listMax ([CompCell.mk 100 CompMark.best,
                CompCell.mk 100 CompMark.best].map (fun c => c.value)) :=
  ⟨by decide, by decide⟩

/-- Witness for the amended C1 theorem at the concrete tied comparison. -/
theorem compare_tie_marks_all_best_witness :
    (CompCell.mk 100 CompMark.best).mark = CompMark.best :=
  (compare_tie_marks_all_best [tieRecA, tieRecB]
      ((compareRuns [tieRecA, tieRecB]).getD []) "alpha" "pageLoad"
      [⟨100, CompMark.best⟩, ⟨100, CompMark.best⟩]
      (by decide) (by decide)).1 (by decide)
    (CompCell.mk 100 CompMark.best) (by decide)

/-- Witness for C3 at the concrete two-run comparison. -/
theorem compare_metric_row_iff_all_defined_witness :
    ((∃ cells, CompLine.metricRow "kylix" "pageLoad" cells ∈
        (compareRuns [exA, exB]).getD []) ↔
      (pwValues (sortRuns [exA, exB]) "kylix" "pageLoad").all
        (fun v => v.isSome) = true) :=
  compare_metric_row_iff_all_defined [exA, exB]
    ((compareRuns [exA, exB]).getD []) "kylix" "pageLoad"
    (by decide) (by decide) (by decide)

/-! ### C9 witness -/

/-- A run containing both targets. -/
def twoTargetRec : RunRecord :=
  { runId := "r5", timestamp := 5,
    targets := [{ target := "kylix", url := "http://kylix.local",
                  playwright := some { tests :=
                    [{ name := "page_load", duration := some 50 }] },
                  k6 := none },
                { target := "pyxis", url := "http://pyxis.local",
                  playwright := some { tests :=
                    [{ name := "page_load", duration := some 60 }] },
                  k6 := none }] }

/-- A run containing only one of the two targets. -/
def oneTargetRec : RunRecord :=
  { runId := "r6", timestamp := 6,
    targets := [{ target := "kylix", url := "http://kylix.local",
                  playwright := some { tests :=
                    [{ name := "page_load", duration := some 55 }] },
                  k6 := none }] }

/-- Witness for C9: target "pyxis" exists only in one of the two compared
runs, and exactly one note is emitted for it. -/
theorem compare_partial_target_note_witness :
    ((compareRuns [twoTargetRec, oneTargetRec]).getD []).count
      (CompLine.noteMissing "pyxis") = 1 :=
  (compare_partial_target_note [twoTargetRec, oneTargetRec]
    ((compareRuns [twoTargetRec, oneTargetRec]).getD []) "pyxis"
    (by decide) (by decide) (by decide)).1

/-! ### C5: run index retention -/

/-- C5: after any index update the index holds at most 50 entries, sorted
newest-timestamp-first; when the existing index already holds 50 entries, the
update drops exactly one entry, one whose timestamp is minimal among all 51
candidates (the oldest). -/
theorem updateRunsIndex_spec (existing : List IndexEntry) (e : IndexEntry) :
    (updateRunsIndex existing e).length ≤ 50 ∧
    List.Sorted entryGe (updateRunsIndex existing e) ∧
    (existing.length = 50 →
      ∃ dropped : IndexEntry,
        (existing ++ [e]).Perm (updateRunsIndex existing e ++ [dropped]) ∧
        ∀ x ∈ updateRunsIndex existing e,
          dropped.timestamp ≤ x.timestamp) := by
  have hperm : (List.insertionSort entryGe (existing ++ [e])).Perm
      (existing ++ [e]) := List.perm_insertionSort entryGe _
  have hsorted : List.Sorted entryGe
      (List.insertionSort entryGe (existing ++ [e])) :=
    List.sorted_insertionSort entryGe _
  simp only [updateRunsIndex]
  split
  · rename_i hgt
    refine ⟨?_, ?_, ?_⟩
    · simp
    · exact hsorted.sublist (List.take_sublist _ _)
    · intro h50
      have hlen : (List.insertionSort entryGe (existing ++ [e])).length = 51 := by
        rw [hperm.length_eq]
        simp [h50]
      have hsplit : List.insertionSort entryGe (existing ++ [e]) =
          (List.insertionSort entryGe (existing ++ [e])).take 50 ++
          (List.insertionSort entryGe (existing ++ [e])).drop 50 :=
        (List.take_append_drop _ _).symm
      have hdlen : ((List.insertionSort entryGe (existing ++ [e])).drop 50).length = 1 := by
        simp [hlen]
      obtain ⟨d, hd⟩ := List.length_eq_one.mp hdlen
      refine ⟨d, ?_, ?_⟩
      · rw [← hd]
        exact (hperm.symm).trans (hsplit ▸ List.Perm.refl _)
      · intro x hx
        have hpw : List.Pairwise entryGe
            ((List.insertionSort entryGe (existing ++ [e])).take 50 ++ [d]) := by
          rw [← hd, ← hsplit]
          exact hsorted
        have := (List.pairwise_append.mp hpw).2.2 x hx d (List.mem_singleton_self d)
        exact this
  · rename_i hle
    refine ⟨?_, hsorted, ?_⟩
    · omega
    · intro h50
      exfalso
      have hlen : (List.insertionSort entryGe (existing ++ [e])).length = 51 := by
        rw [hperm.length_eq]
        simp [h50]
      omega

/-- A concrete 50-entry index. -/
def fullIndex : List IndexEntry :=
  (List.range 50).map (fun i =>
    ({ runId := "", timestamp := (i : Int), targets := [] } : IndexEntry))

/-- The 51st entry pushed onto the full index. -/
def newIndexEntry : IndexEntry := { runId := "new", timestamp := 100, targets := [] }

/-- Witness for C5: pushing a 51st entry onto a full index evicts an
oldest-timestamp entry. -/
theorem updateRunsIndex_spec_witness :
    ∃ dropped : IndexEntry,
      (fullIndex ++ [newIndexEntry]).Perm
        (updateRunsIndex fullIndex newIndexEntry ++ [dropped]) ∧
      ∀ x ∈ updateRunsIndex fullIndex newIndexEntry,
        dropped.timestamp ≤ x.timestamp :=
  (updateRunsIndex_spec fullIndex newIndexEntry).2.2 (by decide)

/-! ### C10: an unparseable index file is silently replaced -/

/-- C10: when the index file exists but cannot be parsed, the update proceeds
with an empty index (no error is surfaced — the embedded update is a total
function) and the written index consists of exactly the current run's
entry; every previously recorded entry is discarded. -/
theorem corrupt_index_resets (e : IndexEntry) :
    updateRunsIndexFile true none e = [e] := rfl

/-! ### C2: three-way k6 branching in summary vs comparison -/

/-- Run whose only target has an errored k6 result. -/
def errK6Rec : RunRecord :=
  { runId := "rx", timestamp := 10,
    targets := [{ target := "a", url := "http://a.local",
                  playwright := none,
                  k6 := some { target := "a", url := "http://a.local",
                               error := some "k6 failed" } }] }

/-- The same run except that the k6 result is null (tool not installed). -/
def nullK6Rec : RunRecord :=
  { runId := "rx", timestamp := 10,
    targets := [{ target := "a", url := "http://a.local",
                  playwright := none,
                  k6 := none }] }

/-- A second run with a successful k6 result (so the availability section is
rendered at all). -/
def okK6Rec : RunRecord :=
  { runId := "ry", timestamp := 20,
    targets := [{ target := "a", url := "http://a.local",
                  playwright := none,
                  k6 := some { target := "a", url := "http://a.local",
                               metricsFile := some "a-k6-results.json",
                               totalRequests := some 3 } }] }

/-- C2 counterexample: the full rendered comparison is *identical* whether
the first run's k6 result was an error object or null — the availability
column shows ❌ for both — while the single-run summary does distinguish the
two.  The claimed three-way branch is therefore not applied to the
comparison's availability column. -/
theorem summary_vs_comparison_k6_counterexample :
    compareRuns [errK6Rec, okK6Rec] = compareRuns [nullK6Rec, okK6Rec] ∧
    summK6 (some { target := "a", url := "http://a.local",
                   error := some "k6 failed" }) ≠ summK6 none :=
  ⟨by decide, by decide⟩

/-- C2 (amended): the three-way branch (absent / errored / succeeded) exists
in the single-run summary only; the comparison's availability column is the
two-way `hasResults` test — true exactly for a non-null, error-free result
with a metrics file, so the errored and absent cases coincide there. -/
theorem k6_branching_amended (r : K6Result) (m : String) :
    (summK6 none = SummK6.skipped) ∧
    (r.error = some m → summK6 (some r) = SummK6.errorLine m) ∧
    (r.error = none → summK6 (some r) = SummK6.success r.metricsFile) ∧
    (k6Has none = false) ∧
    (k6Has (some r) = (r.error.isNone && r.metricsFile.isSome)) := by
  refine ⟨rfl, ?_, ?_, rfl, rfl⟩
  · intro h
    simp [summK6, h]
  · intro h
    simp [summK6, h]

/-- Witness for the amended C2 theorem. -/
theorem k6_branching_amended_witness :
    summK6 (some { target := "t", url := "u", error := some "boom" }) =
      SummK6.errorLine "boom" :=
  (k6_branching_amended { target := "t", url := "u", error := some "boom" }
    "boom").2.1 rfl

/-! ### C7: the load probe's null / error outcomes -/

theorem runTargetsLoop_targets_aux (cfg : List (String × TargetCfg))
    (env2 : BenchEnv) (outputFileOf : String → String) :
    ∀ (selected : List String) (acc : List TargetRecord),
      ((selected.foldl (targetStep cfg env2 outputFileOf) acc).map
          (fun t => t.target)) =
        acc.map (fun t => t.target) ++
          selected.filter (fun name => (objGet cfg name).isSome) := by
  intro selected
  induction selected with
  | nil => intro acc; simp
  | cons name rest ih =>
      intro acc
      rw [List.foldl_cons]
      cases hg : objGet cfg name with
      | none =>
          rw [show targetStep cfg env2 outputFileOf acc name = acc by
                simp [targetStep, hg]]
          rw [ih]
          simp [List.filter_cons, hg]
      | some t =>
          rw [show targetStep cfg env2 outputFileOf acc name =
                acc ++ [{ target := name, url := t.url,
                          playwright := env2.pw name,
                          k6 := runK6Benchmark (env2.k6 name) name t.url
                                  (outputFileOf name) }] by
                simp [targetStep, hg]]
          rw [ih]
          simp [List.filter_cons, hg]

/-- C7: `runK6Benchmark` returns null exactly when the k6 binary cannot be
located; when the binary is found but the load run fails, it returns a result
object carrying the captured error message; and the target loop always
produces one record per known selected target — no k6 outcome aborts the
run. -/
theorem runK6_null_iff_not_installed (env : K6Env) (n u f : String) :
    (runK6Benchmark env n u f = none ↔ env.k6Installed = false) ∧
    (env.k6Installed = true → env.runSucceeds = false →
      runK6Benchmark env n u f =
        some { target := n, url := u, error := some env.runErrorMsg }) ∧
    (∀ (cfg : List (String × TargetCfg)) (selected : List String)
        (outputFileOf : String → String) (env2 : BenchEnv),
      (runTargetsLoop cfg env2 selected outputFileOf).map (fun t => t.target) =
        selected.filter (fun name => (objGet cfg name).isSome)) := by
  refine ⟨?_, ?_, ?_⟩
  · unfold runK6Benchmark
    cases h : env.k6Installed with
    | false => simp [h]
    | true =>
        simp only [h, Bool.not_true, Bool.false_eq_true, if_false]
        cases env.runSucceeds <;> simp
  · intro h1 h2
    unfold runK6Benchmark
    simp [h1, h2]
  · intro cfg selected outputFileOf env2
    unfold runTargetsLoop
    rw [runTargetsLoop_targets_aux]
    simp

/-- Environment where the k6 binary resolves but the load run exits
non-zero. -/
def k6FailEnv : K6Env :=
  { k6Installed := true, runSucceeds := false, runErrorMsg := "exit 1",
    fileExists := false, fileLines := [], parseLine := fun _ => none }

/-- Witness for C7 at a concrete failing environment. -/
theorem runK6_null_iff_not_installed_witness :
    runK6Benchmark k6FailEnv "t" "u" "f" =
      some { target := "t", url := "u", error := some "exit 1" } :=
  (runK6_null_iff_not_installed k6FailEnv "t" "u" "f").2.1 rfl rfl

/-! ### C8: a malformed artifact line is dropped, the rest still count -/

/-- C8: inserting a line that fails to parse anywhere in the k6 metrics
artifact leaves the parsed point list — and hence the reported
`totalRequests` — unchanged, and the probe still returns an error-free
success result. -/
theorem k6_malformed_line_dropped (ex : Bool) (pre post : List String)
    (bad : String) (parse : String → Option JLine)
    (hbad : parse bad = none) :
    parseK6Output ex (pre ++ bad :: post) parse =
      parseK6Output ex (pre ++ post) parse ∧
    ∀ (env : K6Env) (n u f : String),
      env.k6Installed = true → env.runSucceeds = true →
      env.fileLines = pre ++ bad :: post → env.parseLine = parse →
      env.fileExists = ex →
      runK6Benchmark env n u f =
        some { target := n, url := u, metricsFile := some f,
               totalRequests :=
                 some (parseK6Output ex (pre ++ post) parse).length } := by
  have hmain : parseK6Output ex (pre ++ bad :: post) parse =
      parseK6Output ex (pre ++ post) parse := by
    unfold parseK6Output
    split
    · by_cases ht : (bad.trim != "") = true
      · simp [List.filter_append, List.filter_cons, ht,
              List.filterMap_append, List.filterMap_cons, hbad]
      · simp [List.filter_append, List.filter_cons, ht]
    · rfl
  refine ⟨hmain, ?_⟩
  intro env n u f h1 h2 h3 h4 h5
  unfold runK6Benchmark
  simp [h1, h2, h3, h4, h5, hmain]

/-- A concrete line parser: only the exact line `p` parses, to a Point. -/
def pointOnlyParse (s : String) : Option JLine :=
  if s = "p" then some { type := "Point" } else none

/-- Witness for C8 at a concrete artifact with one malformed line. -/
theorem k6_malformed_line_dropped_witness :
    parseK6Output true (["p"] ++ "x" :: ["p"]) pointOnlyParse =
      parseK6Output true (["p"] ++ ["p"]) pointOnlyParse :=
  (k6_malformed_line_dropped true ["p"] ["p"] "x" pointOnlyParse
    (by decide)).1

/-! ### C6: run ids grow lexicographically with the start instant -/

theorem digitChar_lt {j k : Nat} (hj : j < 10) (hk : k < 10) (h : j < k) :
    digitChar j < digitChar k := by
  have hall : ∀ j2 < 10, ∀ k2 < 10, j2 < k2 → digitChar j2 < digitChar k2 := by
    decide
  exact hall j hj k hk h

theorem digitChar_ok {k : Nat} (hk : k < 10) :
    digitChar k ≠ 'T' ∧ digitChar k ≠ ':' ∧ digitChar k ≠ '.' := by
  have hall : ∀ k2 < 10,
      digitChar k2 ≠ 'T' ∧ digitChar k2 ≠ ':' ∧ digitChar k2 ≠ '.' := by
    decide
  exact hall k hk

theorem pad2_forall {P : Char → Prop} {n : Nat} (hn : n < 100)
    (h : ∀ k, k < 10 → P (digitChar k)) : ∀ c ∈ pad2 n, P c := by
  intro c hc
  simp only [pad2, List.mem_cons, List.not_mem_nil, or_false] at hc
  rcases hc with rfl | rfl
  · exact h _ (by omega)
  · exact h _ (by omega)

theorem pad3_forall {P : Char → Prop} {n : Nat} (hn : n < 1000)
    (h : ∀ k, k < 10 → P (digitChar k)) : ∀ c ∈ pad3 n, P c := by
  intro c hc
  simp only [pad3, List.mem_cons] at hc
  rcases hc with rfl | hc
  · exact h _ (by omega)
  · exact pad2_forall (by omega) h c hc

theorem pad4_forall {P : Char → Prop} {n : Nat} (hn : n < 10000)
    (h : ∀ k, k < 10 → P (digitChar k)) : ∀ c ∈ pad4 n, P c := by
  intro c hc
  simp only [pad4, List.mem_append] at hc
  rcases hc with hc | hc
  · exact pad2_forall (by omega) h c hc
  · exact pad2_forall (by omega) h c hc

theorem pad2_chars {n : Nat} (hn : n < 100) :
    ∀ c ∈ pad2 n, c ≠ 'T' ∧ c ≠ ':' ∧ c ≠ '.' :=
  pad2_forall hn (fun _ hk => digitChar_ok hk)

theorem pad3_chars {n : Nat} (hn : n < 1000) :
    ∀ c ∈ pad3 n, c ≠ 'T' ∧ c ≠ ':' ∧ c ≠ '.' :=
  pad3_forall hn (fun _ hk => digitChar_ok hk)

theorem pad4_chars {n : Nat} (hn : n < 10000) :
    ∀ c ∈ pad4 n, c ≠ 'T' ∧ c ≠ ':' ∧ c ≠ '.' :=
  pad4_forall hn (fun _ hk => digitChar_ok hk)

/-! String-operation helpers over character lists. -/

theorem map_id_chars {f : Char → Char} :
    ∀ {l : List Char}, (∀ c ∈ l, f c = c) → l.map f = l := by
  intro l
  induction l with
  | nil => intro _; rfl
  | cons x xs ih =>
      intro h
      simp only [List.map_cons]
      rw [h x (List.mem_cons_self x xs),
          ih (fun c hc => h c (List.mem_cons_of_mem x hc))]

theorem takeWhile_ne_append_all {ch : Char} {a : List Char} (b : List Char)
    (h : ∀ c ∈ a, c ≠ ch) :
    (a ++ b).takeWhile (fun c => c ≠ ch) =
      a ++ b.takeWhile (fun c => c ≠ ch) := by
  induction a with
  | nil => simp
  | cons x xs ih =>
      have hx : decide (x ≠ ch) = true :=
        decide_eq_true (h x (List.mem_cons_self x xs))
      simp only [List.cons_append, List.takeWhile_cons]
      rw [hx, if_pos rfl, ih (fun c hc => h c (List.mem_cons_of_mem x hc))]

theorem takeWhile_ne_cons_keep {ch c : Char} (l : List Char) (hc : c ≠ ch) :
    (c :: l).takeWhile (fun c2 => c2 ≠ ch) =
      c :: l.takeWhile (fun c2 => c2 ≠ ch) := by
  simp [List.takeWhile_cons, hc]

theorem takeWhile_ne_cons_self {ch : Char} (l : List Char) :
    (ch :: l).takeWhile (fun c2 => c2 ≠ ch) = [] := by
  simp [List.takeWhile_cons]

theorem takeWhile_ne_all {ch : Char} {l : List Char}
    (h : ∀ c ∈ l, c ≠ ch) : l.takeWhile (fun c2 => c2 ≠ ch) = l := by
  induction l with
  | nil => rfl
  | cons x xs ih =>
      have hx : decide (x ≠ ch) = true :=
        decide_eq_true (h x (List.mem_cons_self x xs))
      simp only [List.takeWhile_cons]
      rw [hx, if_pos rfl, ih (fun c hc => h c (List.mem_cons_of_mem x hc))]

theorem dropWhile_ne_append_all {ch : Char} {a : List Char} (b : List Char)
    (h : ∀ c ∈ a, c ≠ ch) :
    (a ++ b).dropWhile (fun c => c ≠ ch) =
      b.dropWhile (fun c => c ≠ ch) := by
  induction a with
  | nil => simp
  | cons x xs ih =>
      have hx : decide (x ≠ ch) = true :=
        decide_eq_true (h x (List.mem_cons_self x xs))
      simp only [List.cons_append, List.dropWhile_cons]
      rw [hx, if_pos rfl, ih (fun c hc => h c (List.mem_cons_of_mem x hc))]

theorem dropWhile_ne_cons_self {ch : Char} (l : List Char) :
    (ch :: l).dropWhile (fun c2 => c2 ≠ ch) = ch :: l := by
  simp [List.dropWhile_cons]

/-! Lexicographic-order helpers. -/

theorem lex_append_left {r : Char → Char → Prop} {a b : List Char}
    (u v : List Char) (h : List.Lex r a b) (hl : a.length = b.length) :
    List.Lex r (a ++ u) (b ++ v) := by
  induction h with
  | nil => simp at hl
  | cons h2 ih =>
      simp only [List.length_cons, Nat.succ.injEq] at hl
      exact List.Lex.cons (ih hl)
  | rel hr => exact List.Lex.rel hr

theorem lex_append_same {r : Char → Char → Prop} (a : List Char)
    {u v : List Char} (h : List.Lex r u v) :
    List.Lex r (a ++ u) (a ++ v) := by
  induction a with
  | nil => simpa
  | cons x xs ih => exact List.Lex.cons ih

theorem lex_irrefl_chars (l : List Char) : ¬ List.Lex (· < ·) l l := by
  induction l with
  | nil => intro h; cases h
  | cons x xs ih =>
      intro h
      cases h with
      | cons h2 => exact ih h2
      | rel hr => exact absurd hr (lt_irrefl x)

theorem pad2_lex {n m : Nat} (hn : n < 100) (hm : m < 100) (h : n < m) :
    List.Lex (· < ·) (pad2 n) (pad2 m) := by
  have hdiv : n / 10 ≤ m / 10 := Nat.div_le_div_right (le_of_lt h)
  rcases lt_or_eq_of_le hdiv with hlt | heq
  · exact List.Lex.rel (digitChar_lt (by omega) (by omega) hlt)
  · simp only [pad2]
    rw [heq]
    exact List.Lex.cons (List.Lex.rel
      (digitChar_lt (by omega) (by omega) (by omega)))

theorem pad4_lex {n m : Nat} (hn : n < 10000) (hm : m < 10000) (h : n < m) :
    List.Lex (· < ·) (pad4 n) (pad4 m) := by
  have hdiv : n / 100 ≤ m / 100 := Nat.div_le_div_right (le_of_lt h)
  rcases lt_or_eq_of_le hdiv with hlt | heq
  · exact lex_append_left _ _ (pad2_lex (by omega) (by omega) hlt) rfl
  · simp only [pad4]
    rw [heq]
    exact lex_append_same _ (pad2_lex (by omega) (by omega) (by omega))

theorem dropWhile_ne_cons_drop {ch c : Char} (l : List Char) (hc : c ≠ ch) :
    (c :: l).dropWhile (fun c2 => c2 ≠ ch) =
      l.dropWhile (fun c2 => c2 ≠ ch) := by
  have hx : decide (c ≠ ch) = true := decide_eq_true hc
  simp only [List.dropWhile_cons]
  rw [hx, if_pos rfl]

/-! Distribution of the two replacements. -/

theorem replaceColonDot_append (a b : List Char) :
    replaceColonDot (a ++ b) = replaceColonDot a ++ replaceColonDot b := by
  unfold replaceColonDot
  exact List.map_append _ a b

theorem replaceColonDot_cons (c : Char) (l : List Char) :
    replaceColonDot (c :: l) =
      (if c = ':' ∨ c = '.' then '-' else c) :: replaceColonDot l := rfl

theorem replaceColonDot_pad2 {n : Nat} (hn : n < 100) :
    replaceColonDot (pad2 n) = pad2 n := by
  unfold replaceColonDot
  exact map_id_chars (fun c hc => by
    obtain ⟨h1, h2, h3⟩ := pad2_chars hn c hc
    simp [h2, h3])

theorem replaceColonDot_pad3 {n : Nat} (hn : n < 1000) :
    replaceColonDot (pad3 n) = pad3 n := by
  unfold replaceColonDot
  exact map_id_chars (fun c hc => by
    obtain ⟨h1, h2, h3⟩ := pad3_chars hn c hc
    simp [h2, h3])

theorem replaceColonDot_pad4 {n : Nat} (hn : n < 10000) :
    replaceColonDot (pad4 n) = pad4 n := by
  unfold replaceColonDot
  exact map_id_chars (fun c hc => by
    obtain ⟨h1, h2, h3⟩ := pad4_chars hn c hc
    simp [h2, h3])

theorem replaceColon_append (a b : List Char) :
    replaceColon (a ++ b) = replaceColon a ++ replaceColon b := by
  unfold replaceColon
  exact List.map_append _ a b

theorem replaceColon_cons (c : Char) (l : List Char) :
    replaceColon (c :: l) =
      (if c = ':' then '-' else c) :: replaceColon l := rfl

theorem replaceColon_pad2 {n : Nat} (hn : n < 100) :
    replaceColon (pad2 n) = pad2 n := by
  unfold replaceColon
  exact map_id_chars (fun c hc => by
    obtain ⟨h1, h2, h3⟩ := pad2_chars hn c hc
    simp [h2])

theorem replaceColon_nil : replaceColon [] = [] := rfl

/-! The ISO string after `replace(/[:.]/g, '-')`. -/

theorem replaceColonDot_iso (t : Timestamp) (h : t.WF) :
    replaceColonDot (isoChars t) =
      pad4 t.year ++ '-' ::
      (pad2 t.month ++ '-' ::
      (pad2 t.day ++ 'T' ::
      (pad2 t.hour ++ '-' ::
      (pad2 t.minute ++ '-' ::
      (pad2 t.second ++ '-' ::
      (pad3 t.ms ++ ['Z'])))))) := by
  unfold isoChars
  rw [replaceColonDot_append, replaceColonDot_pad4 h.1,
      replaceColonDot_cons, replaceColonDot_append,
      replaceColonDot_pad2 h.2.1,
      replaceColonDot_cons, replaceColonDot_append,
      replaceColonDot_pad2 h.2.2.1,
      replaceColonDot_cons, replaceColonDot_append,
      replaceColonDot_pad2 h.2.2.2.1,
      replaceColonDot_cons, replaceColonDot_append,
      replaceColonDot_pad2 h.2.2.2.2.1,
      replaceColonDot_cons, replaceColonDot_append,
      replaceColonDot_pad2 h.2.2.2.2.2.1,
      replaceColonDot_cons, replaceColonDot_append,
      replaceColonDot_pad3 h.2.2.2.2.2.2,
      replaceColonDot_cons]
  simp only [show (if ('-' : Char) = ':' ∨ ('-' : Char) = '.' then '-' else '-') = '-'
               from by decide,
             show (if ('T' : Char) = ':' ∨ ('T' : Char) = '.' then '-' else 'T') = 'T'
               from by decide,
             show (if (':' : Char) = ':' ∨ (':' : Char) = '.' then '-' else ':') = '-'
               from by decide,
             show (if ('.' : Char) = ':' ∨ ('.' : Char) = '.' then '-' else '.') = '-'
               from by decide,
             show (if ('Z' : Char) = ':' ∨ ('Z' : Char) = '.' then '-' else 'Z') = 'Z'
               from by decide]
  rfl

/-! The date and time halves of the run id. -/

theorem datePart_eq (t : Timestamp) (h : t.WF) :
    splitT0 (replaceColonDot (isoChars t)) =
      pad4 t.year ++ '-' :: (pad2 t.month ++ '-' :: pad2 t.day) := by
  rw [replaceColonDot_iso t h]
  unfold splitT0
  rw [takeWhile_ne_append_all _ (fun c hc => (pad4_chars h.1 c hc).1),
      takeWhile_ne_cons_keep _ (by decide),
      takeWhile_ne_append_all _ (fun c hc => (pad2_chars h.2.1 c hc).1),
      takeWhile_ne_cons_keep _ (by decide),
      takeWhile_ne_append_all _ (fun c hc => (pad2_chars h.2.2.1 c hc).1),
      takeWhile_ne_cons_self, List.append_nil]

theorem splitT1_iso (t : Timestamp) (h : t.WF) :
    splitT1 (isoChars t) =
      pad2 t.hour ++ ':' :: (pad2 t.minute ++ ':' ::
        (pad2 t.second ++ '.' :: (pad3 t.ms ++ ['Z']))) := by
  unfold splitT1 isoChars
  rw [dropWhile_ne_append_all _ (fun c hc => (pad4_chars h.1 c hc).1),
      dropWhile_ne_cons_drop _ (by decide),
      dropWhile_ne_append_all _ (fun c hc => (pad2_chars h.2.1 c hc).1),
      dropWhile_ne_cons_drop _ (by decide),
      dropWhile_ne_append_all _ (fun c hc => (pad2_chars h.2.2.1 c hc).1),
      dropWhile_ne_cons_self]
  simp only [List.drop_succ_cons, List.drop_zero]
  apply takeWhile_ne_all
  intro c hc
  simp only [List.mem_append, List.mem_cons, List.not_mem_nil, or_false] at hc
  rcases hc with hc | rfl | hc | rfl | hc | rfl | hc | rfl
  · exact (pad2_chars h.2.2.2.1 c hc).1
  · decide
  · exact (pad2_chars h.2.2.2.2.1 c hc).1
  · decide
  · exact (pad2_chars h.2.2.2.2.2.1 c hc).1
  · decide
  · exact (pad3_chars h.2.2.2.2.2.2 c hc).1
  · decide

theorem timePart_eq (t : Timestamp) (h : t.WF) :
    replaceColon (splitDot0 (splitT1 (isoChars t))) =
      pad2 t.hour ++ '-' :: (pad2 t.minute ++ '-' :: pad2 t.second) := by
  rw [splitT1_iso t h]
  unfold splitDot0
  rw [takeWhile_ne_append_all _ (fun c hc => (pad2_chars h.2.2.2.1 c hc).2.2),
      takeWhile_ne_cons_keep _ (by decide),
      takeWhile_ne_append_all _ (fun c hc => (pad2_chars h.2.2.2.2.1 c hc).2.2),
      takeWhile_ne_cons_keep _ (by decide),
      takeWhile_ne_append_all _ (fun c hc => (pad2_chars h.2.2.2.2.2.1 c hc).2.2),
      takeWhile_ne_cons_self, List.append_nil]
  rw [replaceColon_append, replaceColon_pad2 h.2.2.2.1,
      replaceColon_cons, replaceColon_append,
      replaceColon_pad2 h.2.2.2.2.1,
      replaceColon_cons, replaceColon_pad2 h.2.2.2.2.2.1]
  simp

/-- For a well-formed instant the computed run id has the closed form
`YYYY-MM-DD_HH-MM-SS`. -/
theorem runId_canon (t : Timestamp) (h : t.WF) :
    runIdChars (isoChars t) = runIdCanon t := by
  unfold runIdChars
  rw [datePart_eq t h, timePart_eq t h]
  unfold runIdCanon
  simp [List.append_assoc]

/-- C6: run ids are strictly increasing and unique across instants that
differ at second resolution: for two well-formed start instants with the
first chronologically earlier (seconds truncation), the first run id is
lexicographically strictly smaller than the second, and the two ids
differ. -/
theorem runId_lex_increasing (t1 t2 : Timestamp) (h1 : t1.WF) (h2 : t2.WF)
    (hlt : t1.secLt t2) :
    List.Lex (· < ·) (runIdChars (isoChars t1)) (runIdChars (isoChars t2)) ∧
    runIdChars (isoChars t1) ≠ runIdChars (isoChars t2) := by
  have hlex : List.Lex (· < ·) (runIdChars (isoChars t1))
      (runIdChars (isoChars t2)) := by
    rw [runId_canon t1 h1, runId_canon t2 h2]
    obtain ⟨hy1, hmo1, hd1, hh1, hmi1, hs1, _⟩ := h1
    obtain ⟨hy2, hmo2, hd2, hh2, hmi2, hs2, _⟩ := h2
    unfold runIdCanon
    rcases hlt with hy | ⟨hy, hrest⟩
    · exact lex_append_left _ _ (pad4_lex hy1 hy2 hy) rfl
    · rw [hy]
      apply lex_append_same
      apply List.Lex.cons
      rcases hrest with hmo | ⟨hmo, hrest⟩
      · exact lex_append_left _ _ (pad2_lex hmo1 hmo2 hmo) rfl
      · rw [hmo]
        apply lex_append_same
        apply List.Lex.cons
        rcases hrest with hd | ⟨hd, hrest⟩
        · exact lex_append_left _ _ (pad2_lex hd1 hd2 hd) rfl
        · rw [hd]
          apply lex_append_same
          apply List.Lex.cons
          rcases hrest with hh | ⟨hh, hrest⟩
          · exact lex_append_left _ _ (pad2_lex hh1 hh2 hh) rfl
          · rw [hh]
            apply lex_append_same
            apply List.Lex.cons
            rcases hrest with hmi | ⟨hmi, hsec⟩
            · exact lex_append_left _ _ (pad2_lex hmi1 hmi2 hmi) rfl
            · rw [hmi]
              apply lex_append_same
              apply List.Lex.cons
              exact pad2_lex hs1 hs2 hsec
  exact ⟨hlex, fun he => lex_irrefl_chars _ (he ▸ hlex)⟩

/-- Witness for C6: two concrete instants five minutes apart. -/
theorem runId_lex_increasing_witness :
    List.Lex (· < ·)
      (runIdChars (isoChars
        { year := 2026, month := 1, day := 18, hour := 10, minute := 0,
          second := 0, ms := 0 }))
      (runIdChars (isoChars
        { year := 2026, month := 1, day := 18, hour := 10, minute := 5,
          second := 0, ms := 0 })) :=
  (runId_lex_increasing
    { year := 2026, month := 1, day := 18, hour := 10, minute := 0,
      second := 0, ms := 0 }
    { year := 2026, month := 1, day := 18, hour := 10, minute := 5,
      second := 0, ms := 0 }
    (by decide) (by decide) (by decide)).1
